import Mathlib

/-
Verification of the static analysis engine specified for the cil fixture
corpus.  The repository ships the C fixture programs (under callgraph/,
pta/ and blockinggraph/); the engine itself is described by the
specification, so every engine definition below is modelled from the
specification text and marked as such.  The fixture programs are embedded
statement by statement from their C sources.

Abstract locations and functions are identified by natural-number arena
indices (spec section 9).  A points-to state is a finite relation
R : Finset (Nat x Nat), where (p, l) in R means location p may point to
location l.
-/

namespace CIL

/-- Modelled from the spec: a field map gives, for an abstract location and
a field index, the abstract location of that field slot (struct-field
sensitivity, spec section 4.1). -/
abbrev Fld := Nat → Nat → Option Nat

/-- Modelled from the spec: the constraint forms of the points-to analyzer
(spec section 4.1): address-of, copy, load, store, and their field-sensitive
variants used for struct-field reads and writes. -/
inductive Constraint where
  | addrOf (p l : Nat)
  | copy (p q : Nat)
  | load (p q : Nat)
  | store (p q : Nat)
  | loadFld (p q : Nat) (fd : Nat)
  | storeFld (p q : Nat) (fd : Nat)
deriving DecidableEq

/-- Modelled from the spec: PointsToSet(q) read out of the relation. -/
def ptsOf (R : Finset (Nat × Nat)) (q : Nat) : Finset Nat :=
  (R.filter (fun pr => pr.1 = q)).image Prod.snd

/-- Modelled from the spec: the pairs a single constraint contributes given
the current state R (one monotone constraint-application step). -/
def genC (fld : Fld) (R : Finset (Nat × Nat)) : Constraint → Finset (Nat × Nat)
  | Constraint.addrOf p l => {(p, l)}
  | Constraint.copy p q => (ptsOf R q).image (fun l => (p, l))
  | Constraint.load p q =>
      (ptsOf R q).biUnion (fun a => (ptsOf R a).image (fun l => (p, l)))
  | Constraint.store p q =>
      (ptsOf R p).biUnion (fun a => (ptsOf R q).image (fun l => (a, l)))
  | Constraint.loadFld p q fd =>
      (ptsOf R q).biUnion (fun a =>
        match fld a fd with
        | some s => (ptsOf R s).image (fun l => (p, l))
        | none => ∅)
  | Constraint.storeFld p q fd =>
      (ptsOf R p).biUnion (fun a =>
        match fld a fd with
        | some s => (ptsOf R q).image (fun l => (s, l))
        | none => ∅)

/-- Modelled from the spec: apply every constraint once and union the
results into the state (sets only grow, spec section 4.1). -/
def step (fld : Fld) (cs : List Constraint) (R : Finset (Nat × Nat)) :
    Finset (Nat × Nat) :=
  cs.foldl (fun acc c => acc ∪ genC fld R c) R

/-- Modelled from the spec: the fixed-point iteration from the empty state
(spec section 4.1, worklist iteration collapsed to whole-state rounds). -/
def iterSteps (fld : Fld) (cs : List Constraint) : Nat → Finset (Nat × Nat)
  | 0 => ∅
  | k + 1 => step fld cs (iterSteps fld cs k)

/-- Modelled from the spec: resolve an indirect call: the PointsToSet of the
callee expression intersected with the program functions (spec section 4.2). -/
def resolveCall (funs : List Nat) (R : Finset (Nat × Nat)) (p : Nat) :
    Finset Nat :=
  (ptsOf R p).filter (fun l => l ∈ funs)

/-- Modelled from the spec: a well-formedness bound: every location index
mentioned by the constraint is below n (finitely many AbstractLocations). -/
def ConstrOk (n : Nat) : Constraint → Bool
  | Constraint.addrOf p l => decide (p < n) && decide (l < n)
  | Constraint.copy p q => decide (p < n) && decide (q < n)
  | Constraint.load p q => decide (p < n) && decide (q < n)
  | Constraint.store p q => decide (p < n) && decide (q < n)
  | Constraint.loadFld p q _ => decide (p < n) && decide (q < n)
  | Constraint.storeFld p q _ => decide (p < n) && decide (q < n)

/-- The universe of pairs over n locations. -/
def univN (n : Nat) : Finset (Nat × Nat) :=
  Finset.range n ×ˢ Finset.range n

/-- Static left-hand-side locations a constraint writes directly. -/
def writeLocs : Constraint → List Nat
  | Constraint.addrOf p _ => [p]
  | Constraint.copy p _ => [p]
  | Constraint.load p _ => [p]
  | Constraint.store _ _ => []
  | Constraint.loadFld p _ _ => [p]
  | Constraint.storeFld _ _ _ => []

/-- Locations whose address is taken by a constraint. -/
def addrLocs : Constraint → List Nat
  | Constraint.addrOf _ l => [l]
  | _ => []

/-- Invariant of the iteration: pointees come from address-of constraints
and pointers are either static left-hand sides, address-taken locations, or
field slots of the field map. -/
def OnlyWritten (fld : Fld) (cs : List Constraint) (R : Finset (Nat × Nat)) :
    Prop :=
  ∀ x l, (x, l) ∈ R →
    l ∈ cs.flatMap addrLocs ∧
      (x ∈ cs.flatMap writeLocs ∨ x ∈ cs.flatMap addrLocs ∨ ∃ a fd, fld a fd = some x)

/-- Modelled from the spec: the structured findings the engine emits
(spec section 6). -/
inductive Finding where
  | unresolvedCall (site : Nat)
  | deadlockCycle (locks : List Nat)
  | mismatchedRelease (site : Nat)
  | unreachableFunction (f : Nat)
deriving DecidableEq

/-- A call site of the program model: identifier, callee-pointer location,
and whether the call is indirect. -/
structure CSite where
  sid : Nat
  callee : Nat
  indirect : Bool
deriving DecidableEq

/-- Modelled from the spec: an indirect call whose resolved target set is
empty is surfaced as an UnresolvedCall finding rather than skipped
(spec sections 4.2 and 7). -/
def unresolvedFindings (funs : List Nat) (R : Finset (Nat × Nat))
    (sites : List CSite) : List Finding :=
  sites.filterMap (fun s =>
    if s.indirect = true ∧ resolveCall funs R s.callee = ∅ then
      some (Finding.unresolvedCall s.sid)
    else none)

/-- Modelled from the spec: an assignment through an inline-assembly operand
binding is unmodeled, so the bound pointer is treated as pointing to any
function of the matching category (spec section 4.1, conservative fallback). -/
def asmBind (funs : List Nat) (p : Nat) : List Constraint :=
  funs.map (fun g => Constraint.addrOf p g)

/-- Modelled from the spec: a lock statement of a linearized thread body:
acquire or release of a candidate set of LockObjects (alias fan-out,
spec section 4.3). -/
inductive LockStmt where
  | acq (cands : List Nat)
  | rel (cands : List Nat)
deriving DecidableEq

/-- A hypothetical lock event after fan-out: one per candidate LockObject. -/
structure LockEvent where
  acquire : Bool
  lock : Nat
deriving DecidableEq

/-- A LockOrderEdge: acquired while held, tagged with the originating
ThreadContext (spec sections 3 and 4.4). -/
structure EdgeT where
  tid : Nat
  held : Nat
  acquired : Nat
deriving DecidableEq

/-- A ThreadContext: thread identifier and linearized lock statements of the
code reachable from its entry function. -/
structure ThreadCtx where
  tid : Nat
  stmts : List LockStmt
deriving DecidableEq

/-- Modelled from the spec: a release pops the matching hold-stack entry; a
mismatched release is only a diagnostic and does not abort the walk
(spec section 4.3). -/
def relPop (S : List Nat) (stack : List (List Nat)) : List (List Nat) :=
  match stack with
  | [] => []
  | top :: rest => if top.any (fun l => S.contains l) then rest else top :: rest

/-- Modelled from the spec: walk a thread body with a hold-stack; an acquire
of candidate set S emits one hypothetical event per candidate and a
LockOrderEdge for every (held, acquired) combination (spec section 4.3). -/
def extractGo (tid : Nat) : List LockStmt → List (List Nat) →
    List LockEvent × List EdgeT
  | [], _ => ([], [])
  | LockStmt.acq S :: rest, stack =>
      (S.map (fun l => LockEvent.mk true l) ++
        (extractGo tid rest (S :: stack)).1,
       stack.flatten.flatMap (fun h => S.map (fun a => EdgeT.mk tid h a)) ++
        (extractGo tid rest (S :: stack)).2)
  | LockStmt.rel S :: rest, stack =>
      (S.map (fun l => LockEvent.mk false l) ++
        (extractGo tid rest (relPop S stack)).1,
       (extractGo tid rest (relPop S stack)).2)

/-- LockOrderEdges of one ThreadContext. -/
def ctxEdges (c : ThreadCtx) : List EdgeT :=
  (extractGo c.tid c.stmts []).2

/-- Modelled from the spec: union of the per-context LockOrderEdges
(spec section 4.4). -/
def allEdges (ctxs : List ThreadCtx) : List EdgeT :=
  ctxs.flatMap ctxEdges

/-- All hypothetical lock events of the analysis, across contexts. -/
def allEvents (ctxs : List ThreadCtx) : List LockEvent :=
  ctxs.flatMap (fun c => (extractGo c.tid c.stmts []).1)

/-- Deduplicated (held, acquired) pairs of the LockOrderGraph. -/
def pairEdges (es : List EdgeT) : List (Nat × Nat) :=
  (es.map (fun e => (e.held, e.acquired))).dedup

/-- ThreadContexts contributing the (held, acquired) edge. -/
def tidsOf (es : List EdgeT) (h a : Nat) : List Nat :=
  ((es.filter (fun e => e.held == h && e.acquired == a)).map EdgeT.tid).dedup

/-- Successors of a node in the LockOrderGraph. -/
def succsG (es : List (Nat × Nat)) (u : Nat) : List Nat :=
  ((es.filter (fun e => e.1 == u)).map Prod.snd).dedup

/-- Modelled from the spec: depth-first enumeration of elementary cycles;
only nodes at least the start node are explored, so every elementary cycle
is produced exactly once, rooted at its minimal LockObject
(spec section 4.5). -/
def dfsC (es : List (Nat × Nat)) (s : Nat) : Nat → Nat → List Nat →
    List (List Nat)
  | 0, _, _ => []
  | fuel + 1, u, path =>
      (succsG es u).flatMap (fun v =>
        if v = s then (if 2 ≤ path.length then [path] else [])
        else if v < s then []
        else if v ∈ path then []
        else dfsC es s fuel v (path ++ [v]))

/-- Nodes of the LockOrderGraph. -/
def nodesG (es : List (Nat × Nat)) : List Nat :=
  (es.map Prod.fst ++ es.map Prod.snd).dedup

/-- All elementary cycles (of at least two distinct LockObjects). -/
def elemCycles (es : List (Nat × Nat)) : List (List Nat) :=
  (nodesG es).flatMap (fun s => dfsC es s ((nodesG es).length + 1) s [s])

/-- The consecutive (held, acquired) pairs of a cycle, closing back to the
start node. -/
def cycEdges (c : List Nat) : List (Nat × Nat) :=
  c.zip (c.drop 1 ++ c.take 1)

/-- Distinct ThreadContexts contributing edges of the cycle. -/
def cycTids (es : List EdgeT) (c : List Nat) : List Nat :=
  ((cycEdges c).flatMap (fun pr => tidsOf es pr.1 pr.2)).dedup

/-- Modelled from the spec: report the elementary cycles whose edges
originate from at least two distinct ThreadContexts (spec sections 4.4
and 4.5). -/
def detect (ctxs : List ThreadCtx) : List (List Nat) :=
  (elemCycles (pairEdges (allEdges ctxs))).filter
    (fun c => decide (2 ≤ (cycTids (allEdges ctxs) c).length))

/-- The DeadlockCycle findings of the analysis. -/
def deadlockFindings (ctxs : List ThreadCtx) : List Finding :=
  (detect ctxs).map Finding.deadlockCycle

/-- Modelled from the spec: closure of a location set under points-to edges
and field slots, used to find what escapes through an argument handed to an
unknown external callee (spec sections 4.1 and 7, conservative fallback);
locs is the arena of all abstract locations of the program. -/
def locClosure (R : Finset (Nat × Nat)) (fieldsOf : Nat → List Nat)
    (locs : List Nat) : Nat → List Nat → List Nat
  | 0, S => S
  | k + 1, S =>
      locClosure R fieldsOf locs k
        ((S ++ S.flatMap (fun l =>
          fieldsOf l ++ locs.filter (fun t => decide ((l, t) ∈ R)))).dedup)

/-- Modelled from the spec: call-graph reachability closure from a root set
(spec section 4.2). -/
def reachClose (callees : Nat → List Nat) : Nat → List Nat → List Nat
  | 0, S => S
  | k + 1, S => reachClose callees k ((S ++ S.flatMap callees).dedup)

/-- Modelled from the spec: functions not potentially invoked are reported
as dead code (spec section 4.2, UnreachableFunction findings). -/
def unreachableFindings (funs : List Nat) (invoked : List Nat) :
    List Finding :=
  (funs.filter (fun f => !(invoked.contains f))).map
    Finding.unreachableFunction

/-- The trivial field map for programs without struct-field constraints. -/
def noFld : Fld := fun _ _ => none

namespace FuncPtr

/-
Embedding of callgraph/func_ptr.c.
Locations: print = 1, upper = 2, noop = 3, main = 4, start = 5,
the local f of main = 6, the local g of start = 7.
-/

def printFn : Nat := 1

def upperFn : Nat := 2

def noopFn : Nat := 3

def fLoc : Nat := 6

def gLoc : Nat := 7

def funs : List Nat := [1, 2, 3, 4, 5]

/-- The assignments f = n % 2 == 0 ? print : noop and
g = n % 2 == 0 ? upper : noop: both arms reach the pointer. -/
def cs : List Constraint :=
  [Constraint.addrOf 6 1, Constraint.addrOf 6 3,
   Constraint.addrOf 7 2, Constraint.addrOf 7 3]

def sol : Finset (Nat × Nat) := iterSteps noFld cs 2

end FuncPtr

namespace FuncPtrArray

/-
Embedding of callgraph/func_ptr_array.c.
Array cells of f are merged into one abstract location (the spec declares
array-index-sensitive aliasing a non-goal).
Locations: print = 1, noop = 2, main = 3, the array f = 4.
-/

def printFn : Nat := 1

def noopFn : Nat := 2

def fArr : Nat := 4

def funs : List Nat := [1, 2, 3]

/-- The loop body f[i] = rand() % 2 == 0 ? print : noop. -/
def cs : List Constraint :=
  [Constraint.addrOf 4 1, Constraint.addrOf 4 2]

def sol : Finset (Nat × Nat) := iterSteps noFld cs 2

end FuncPtrArray

namespace FuncPtrRet

/-
Embedding of callgraph/func_ptr_ret.c.
Locations: print = 1, noop = 2, ret = 3, main = 4,
the virtual return location of ret = 5, the local f of main = 6.
-/

def printFn : Nat := 1

def noopFn : Nat := 2

def retLoc : Nat := 5

def fLoc : Nat := 6

def funs : List Nat := [1, 2, 3, 4]

/-- The statement return rand() % 2 == 0 ? print : noop feeds the virtual
return location; f = ret() copies it into f. -/
def cs : List Constraint :=
  [Constraint.addrOf 5 1, Constraint.addrOf 5 2, Constraint.copy 6 5]

def sol : Finset (Nat × Nat) := iterSteps noFld cs 3

end FuncPtrRet

namespace FuncPtrExtern

/-
Embedding of callgraph/func_ptr_extern.c.
Locations: print = 1, main = 2, the external pointer f = 3,
the local g of main = 4.  f is declared but never assigned in the
visible program, so no constraint writes it.
-/

def printFn : Nat := 1

def fLoc : Nat := 3

def funs : List Nat := [1, 2]

/-- The only assignment of the program: g = print. -/
def cs : List Constraint := [Constraint.addrOf 4 1]

def sol : Finset (Nat × Nat) := iterSteps noFld cs 2

def siteF : Nat := 0

/-- The single call site f('f'), indirect through location 3. -/
def sites : List CSite := [CSite.mk 0 3 true]

end FuncPtrExtern

namespace AsmFix

/-
Embedding of callgraph/asm.c.
Locations: add = 1, call = 2, main = 3, the local f of main = 4.
The only assignment of f is the inline-assembly operand binding
mov %1, %0 : "=r" (f) : "r" (add), an unmodeled construct.
-/

def addFn : Nat := 1

def fLoc : Nat := 4

def funs : List Nat := [1, 2, 3]

/-- The conservative constraints for the operand binding of f. -/
def cs : List Constraint := asmBind funs fLoc

def sol : Finset (Nat × Nat) := iterSteps noFld cs 2

end AsmFix

namespace CustomAlloc

/-
Embedding of pta/extra/custom_allocator.c.
Function locations: malloc = 1, free = 2, object_new = 3, object_free = 4,
main = 5.
Data locations: the struct variable alloc of main = 10 with field slots
alloc.alloc = 11 and alloc.free = 12; the local obj of main = 13; the
parameter alloc of object_new = 14; the local obj of object_new = 15; the
heap object allocated at the alloc->alloc call site = 16 with field slots
.alloc.alloc = 18 and .alloc.free = 19; the virtual return location of
object_new = 20; the parameter obj of object_free = 21; the callee
temporary of the alloc->alloc call = 22; the callee temporary of the
obj->alloc.free call = 23; the field-copy temporaries of
obj->alloc = *alloc are 24 and 25.
Field indices of struct allocator: alloc = 0, free = 1.
-/

def freeFn : Nat := 2

def allocFreeField : Nat := 12

def freeCallee : Nat := 23

def allocCallee : Nat := 22

def funs : List Nat := [1, 2, 3, 4, 5]

def fldMap : Fld
  | 10, 0 => some 11
  | 10, 1 => some 12
  | 16, 0 => some 18
  | 16, 1 => some 19
  | _, _ => none

/-- Statement-by-statement constraints:
main: struct allocator alloc = {malloc, free};
main: obj = object_new(4, &alloc), parameter and return copies;
object_new: obj = alloc->alloc(sizeof *obj), callee load plus the heap
allocation site; object_new: obj->alloc = *alloc as a field-wise copy
through temporaries; object_new: return obj; main: object_free(obj)
parameter copy; object_free: the callee load of obj->alloc.free. -/
def cs : List Constraint :=
  [Constraint.addrOf 11 1, Constraint.addrOf 12 2,
   Constraint.addrOf 14 10, Constraint.copy 13 20,
   Constraint.loadFld 22 14 0, Constraint.addrOf 15 16,
   Constraint.loadFld 24 14 0, Constraint.storeFld 15 24 0,
   Constraint.loadFld 25 14 1, Constraint.storeFld 15 25 1,
   Constraint.copy 20 15,
   Constraint.copy 21 13,
   Constraint.loadFld 23 21 1]

def sol : Finset (Nat × Nat) := iterSteps fldMap cs 8

end CustomAlloc

namespace TripleDeadlock

/-
Embedding of blockinggraph/15-deadlock/03-triple_deadlock.c.
LockObjects: mutex1 = 1, mutex2 = 2, mutex3 = 3.
ThreadContexts: main = 0 (pthread_create, pthread_join and printf only,
no lock events), t1 = 1, t2 = 2, t3 = 3.
-/

def mutex1 : Nat := 1

def mutex2 : Nat := 2

def mutex3 : Nat := 3

/-- t1: lock(&mutex1); lock(&mutex2); unlock(&mutex2); unlock(&mutex1). -/
def t1Stmts : List LockStmt :=
  [LockStmt.acq [1], LockStmt.acq [2], LockStmt.rel [2], LockStmt.rel [1]]

/-- t2: lock(&mutex2); lock(&mutex3); unlock(&mutex3); unlock(&mutex2). -/
def t2Stmts : List LockStmt :=
  [LockStmt.acq [2], LockStmt.acq [3], LockStmt.rel [3], LockStmt.rel [2]]

/-- t3: lock(&mutex3); lock(&mutex1); unlock(&mutex1); unlock(&mutex3). -/
def t3Stmts : List LockStmt :=
  [LockStmt.acq [3], LockStmt.acq [1], LockStmt.rel [1], LockStmt.rel [3]]

def ctxs : List ThreadCtx :=
  [ThreadCtx.mk 0 [], ThreadCtx.mk 1 t1Stmts,
   ThreadCtx.mk 2 t2Stmts, ThreadCtx.mk 3 t3Stmts]

end TripleDeadlock

namespace SoundLock

/-
Embedding of blockinggraph/threads/sound_lock.c.
LockObjects: mutex1 = 1, mutex2 = 2.  The local pointer m of main is
location 3: m = &mutex1, then m = &mutex2 under the condition, so m may
denote either mutex.
ThreadContexts: main = 0, t_fun = 1.
-/

def mutex1 : Nat := 1

def mutex2 : Nat := 2

def mLoc : Nat := 3

def cs : List Constraint :=
  [Constraint.addrOf 3 1, Constraint.addrOf 3 2]

def sol : Finset (Nat × Nat) := iterSteps noFld cs 2

/-- main: pthread_mutex_lock(m); pthread_mutex_unlock(m), with the
candidate set of m resolved to both mutexes. -/
def mainStmts : List LockStmt :=
  [LockStmt.acq [1, 2], LockStmt.rel [1, 2]]

/-- t_fun: lock(&mutex1); unlock(&mutex1). -/
def tFunStmts : List LockStmt :=
  [LockStmt.acq [1], LockStmt.rel [1]]

def ctxs : List ThreadCtx :=
  [ThreadCtx.mk 0 mainStmts, ThreadCtx.mk 1 tFunStmts]

end SoundLock

namespace SingleNest

/-
The negative fixture described by the spec for same-thread nesting: a
single thread always acquires M1 = 1 then M2 = 2 and never the reverse,
and no other thread exists.
-/

def mutex1 : Nat := 1

def mutex2 : Nat := 2

def ctxs : List ThreadCtx :=
  [ThreadCtx.mk 0
    [LockStmt.acq [1], LockStmt.acq [2], LockStmt.rel [2], LockStmt.rel [1]]]

end SingleNest

namespace TwoThreadAB

/-
A two-thread two-lock reversal: thread 0 acquires 1 then 2, thread 1
acquires 2 then 1.  Used to exhibit a detected cycle with two
contributing ThreadContexts.
-/

def ctxs : List ThreadCtx :=
  [ThreadCtx.mk 0 [LockStmt.acq [1], LockStmt.acq [2]],
   ThreadCtx.mk 1 [LockStmt.acq [2], LockStmt.acq [1]]]

end TwoThreadAB

namespace FunstructRC

/-
Embedding of blockinggraph/threads/funstruct_rc.c.
Function locations: main = 1, t_fun = 2, glob = 3, inc = 4.
LockObjects: A_mutex = 5, B_mutex = 6.
Data locations: the struct dev_ops = 10 with field slots .f = 11 and
.g = 12.  register_dev is external; main passes &dev_ops to it, so the
closure of dev_ops under fields and points-to escapes.
ThreadContexts: main = 0, t_fun = 1, and one context per escaped function
treated as potentially invoked by the unknown external code:
glob = 2, inc = 3.
-/

def mainFn : Nat := 1

def tFunFn : Nat := 2

def globFn : Nat := 3

def incFn : Nat := 4

def Amutex : Nat := 5

def Bmutex : Nat := 6

def funs : List Nat := [1, 2, 3, 4]

/-- The initializer struct ops dev_ops = { .f = inc, .g = glob }. -/
def cs : List Constraint :=
  [Constraint.addrOf 11 4, Constraint.addrOf 12 3]

def sol : Finset (Nat × Nat) := iterSteps noFld cs 2

def fieldsOf : Nat → List Nat := fun l => if l = 10 then [11, 12] else []

/-- Locations escaping through the call register_dev(&dev_ops). -/
def escapedLocs : List Nat := locClosure sol fieldsOf (List.range 13) 4 [10]

/-- Escaped functions: those whose address reaches the external callee. -/
def escapedFuns : List Nat := funs.filter (fun f => escapedLocs.contains f)

/-- No fixture function calls another fixture function directly. -/
def callees : Nat → List Nat := fun _ => []

/-- Potentially invoked functions: reachable from main and the thread
entry t_fun, together with the escaped functions. -/
def invoked : List Nat := reachClose callees 2 ([1, 2] ++ escapedFuns)

/-- main: lock(&A_mutex); unlock(&A_mutex); t_fun the same; glob:
lock(&B_mutex); unlock(&B_mutex); inc has no lock events. -/
def ctxs : List ThreadCtx :=
  [ThreadCtx.mk 0 [LockStmt.acq [5], LockStmt.rel [5]],
   ThreadCtx.mk 1 [LockStmt.acq [5], LockStmt.rel [5]],
   ThreadCtx.mk 2 [LockStmt.acq [6], LockStmt.rel [6]],
   ThreadCtx.mk 3 []]

end FunstructRC

theorem mem_foldl_union (fld : Fld) (R A : Finset (Nat × Nat))
    (cs : List Constraint) (pr : Nat × Nat) :
    (pr ∈ cs.foldl (fun acc c => acc ∪ genC fld R c) A) ↔
      pr ∈ A ∨ ∃ c ∈ cs, pr ∈ genC fld R c := by
  induction cs generalizing A with
  | nil => simp
  | cons c cs ih =>
      rw [List.foldl_cons, ih]
      simp only [Finset.mem_union, List.mem_cons]
      constructor
      · rintro ((h | h) | ⟨d, hd, h⟩)
        · exact Or.inl h
        · exact Or.inr ⟨c, Or.inl rfl, h⟩
        · exact Or.inr ⟨d, Or.inr hd, h⟩
      · rintro (h | ⟨d, (rfl | hd), h⟩)
        · exact Or.inl (Or.inl h)
        · exact Or.inl (Or.inr h)
        · exact Or.inr ⟨d, hd, h⟩

theorem mem_step_iff (fld : Fld) (cs : List Constraint)
    (R : Finset (Nat × Nat)) (pr : Nat × Nat) :
    pr ∈ step fld cs R ↔ pr ∈ R ∨ ∃ c ∈ cs, pr ∈ genC fld R c :=
  mem_foldl_union fld R R cs pr

/-- Monotone growth: a state is contained in its successor state. -/
theorem subset_step (fld : Fld) (cs : List Constraint)
    (R : Finset (Nat × Nat)) : R ⊆ step fld cs R := by
  intro pr hpr
  exact (mem_step_iff fld cs R pr).mpr (Or.inl hpr)

theorem mem_ptsOf {R : Finset (Nat × Nat)} {q l : Nat} :
    l ∈ ptsOf R q ↔ (q, l) ∈ R := by
  unfold ptsOf
  simp only [Finset.mem_image, Finset.mem_filter]
  constructor
  · rintro ⟨⟨a, b⟩, ⟨hab, h1⟩, h2⟩
    cases h1
    cases h2
    exact hab
  · intro h
    exact ⟨(q, l), ⟨h, rfl⟩, rfl⟩

theorem genC_mem_step (fld : Fld) (cs : List Constraint)
    (R : Finset (Nat × Nat)) (c : Constraint) (pr : Nat × Nat)
    (hc : c ∈ cs) (hpr : pr ∈ genC fld R c) : pr ∈ step fld cs R :=
  (mem_step_iff fld cs R pr).mpr (Or.inr ⟨c, hc, hpr⟩)

/-- An address-of constraint is satisfied by every post-step state. -/
theorem addrOf_mem_step (fld : Fld) (cs : List Constraint)
    (R : Finset (Nat × Nat)) (p l : Nat)
    (hc : Constraint.addrOf p l ∈ cs) : (p, l) ∈ step fld cs R := by
  apply genC_mem_step fld cs R (Constraint.addrOf p l) (p, l) hc
  simp [genC]

theorem mem_resolveCall {funs : List Nat} {R : Finset (Nat × Nat)}
    {p l : Nat} : l ∈ resolveCall funs R p ↔ (p, l) ∈ R ∧ l ∈ funs := by
  unfold resolveCall
  rw [Finset.mem_filter, mem_ptsOf]

theorem mem_univN {n : Nat} {pr : Nat × Nat} :
    pr ∈ univN n ↔ pr.1 < n ∧ pr.2 < n := by
  unfold univN
  rw [Finset.mem_product, Finset.mem_range, Finset.mem_range]

/-- Pairs contributed by a well-formed constraint stay inside the location
universe. -/
theorem genC_bounded (fld : Fld) (n : Nat) (c : Constraint)
    (R : Finset (Nat × Nat)) (hc : ConstrOk n c = true)
    (hfld : ∀ a fd s, fld a fd = some s → s < n)
    (hR : R ⊆ univN n) : genC fld R c ⊆ univN n := by
  intro pr hpr
  rw [mem_univN]
  cases c with
  | addrOf p l =>
      simp only [genC, Finset.mem_singleton] at hpr
      subst hpr
      simpa [ConstrOk] using hc
  | copy p q =>
      simp only [genC, Finset.mem_image] at hpr
      obtain ⟨l, hl, rfl⟩ := hpr
      have hlR := mem_ptsOf.mp hl
      have := mem_univN.mp (hR hlR)
      have hp : p < n ∧ q < n := by simpa [ConstrOk] using hc
      exact ⟨hp.1, this.2⟩
  | load p q =>
      simp only [genC, Finset.mem_biUnion, Finset.mem_image] at hpr
      obtain ⟨a, _, l, hl, rfl⟩ := hpr
      have := mem_univN.mp (hR (mem_ptsOf.mp hl))
      have hp : p < n := (by simpa [ConstrOk] using hc : p < n ∧ q < n).1
      exact ⟨hp, this.2⟩
  | store p q =>
      simp only [genC, Finset.mem_biUnion, Finset.mem_image] at hpr
      obtain ⟨a, ha, l, hl, rfl⟩ := hpr
      have h1 := mem_univN.mp (hR (mem_ptsOf.mp ha))
      have h2 := mem_univN.mp (hR (mem_ptsOf.mp hl))
      exact ⟨h1.2, h2.2⟩
  | loadFld p q fd =>
      simp only [genC, Finset.mem_biUnion] at hpr
      obtain ⟨a, _, hin⟩ := hpr
      have hp : p < n := (by simpa [ConstrOk] using hc : p < n ∧ q < n).1
      cases hfd : fld a fd with
      | none => rw [hfd] at hin; simp at hin
      | some s =>
          rw [hfd] at hin
          simp only [Finset.mem_image] at hin
          obtain ⟨l, hl, rfl⟩ := hin
          have := mem_univN.mp (hR (mem_ptsOf.mp hl))
          exact ⟨hp, this.2⟩
  | storeFld p q fd =>
      simp only [genC, Finset.mem_biUnion] at hpr
      obtain ⟨a, _, hin⟩ := hpr
      cases hfd : fld a fd with
      | none => rw [hfd] at hin; simp at hin
      | some s =>
          rw [hfd] at hin
          simp only [Finset.mem_image] at hin
          obtain ⟨l, hl, rfl⟩ := hin
          have := mem_univN.mp (hR (mem_ptsOf.mp hl))
          exact ⟨hfld a fd s hfd, this.2⟩

theorem step_bounded (fld : Fld) (n : Nat) (cs : List Constraint)
    (R : Finset (Nat × Nat)) (hcs : ∀ c ∈ cs, ConstrOk n c = true)
    (hfld : ∀ a fd s, fld a fd = some s → s < n)
    (hR : R ⊆ univN n) : step fld cs R ⊆ univN n := by
  intro pr hpr
  rcases (mem_step_iff fld cs R pr).mp hpr with h | ⟨c, hc, h⟩
  · exact hR h
  · exact genC_bounded fld n c R (hcs c hc) hfld hR h

theorem iterSteps_bounded (fld : Fld) (n : Nat) (cs : List Constraint)
    (hcs : ∀ c ∈ cs, ConstrOk n c = true)
    (hfld : ∀ a fd s, fld a fd = some s → s < n) (k : Nat) :
    iterSteps fld cs k ⊆ univN n := by
  induction k with
  | zero => intro pr hpr; simp [iterSteps] at hpr
  | succ k ih => exact step_bounded fld n cs _ hcs hfld ih

theorem onlyWritten_step (fld : Fld) (cs : List Constraint)
    (R : Finset (Nat × Nat)) (hR : OnlyWritten fld cs R) :
    OnlyWritten fld cs (step fld cs R) := by
  intro x l hx
  rcases (mem_step_iff fld cs R (x, l)).mp hx with h | ⟨c, hc, h⟩
  · exact hR x l h
  · cases c with
    | addrOf p m =>
        simp only [genC, Finset.mem_singleton, Prod.mk.injEq] at h
        obtain ⟨rfl, rfl⟩ := h
        constructor
        · exact List.mem_flatMap.mpr ⟨_, hc, by simp [addrLocs]⟩
        · exact Or.inl (List.mem_flatMap.mpr ⟨_, hc, by simp [writeLocs]⟩)
    | copy p q =>
        simp only [genC, Finset.mem_image, Prod.mk.injEq] at h
        obtain ⟨m, hm, rfl, rfl⟩ := h
        refine ⟨(hR q m (mem_ptsOf.mp hm)).1, ?_⟩
        exact Or.inl (List.mem_flatMap.mpr ⟨_, hc, by simp [writeLocs]⟩)
    | load p q =>
        simp only [genC, Finset.mem_biUnion, Finset.mem_image,
          Prod.mk.injEq] at h
        obtain ⟨a, _, m, hm, rfl, rfl⟩ := h
        refine ⟨(hR a m (mem_ptsOf.mp hm)).1, ?_⟩
        exact Or.inl (List.mem_flatMap.mpr ⟨_, hc, by simp [writeLocs]⟩)
    | store p q =>
        simp only [genC, Finset.mem_biUnion, Finset.mem_image,
          Prod.mk.injEq] at h
        obtain ⟨a, ha, m, hm, rfl, rfl⟩ := h
        refine ⟨(hR q m (mem_ptsOf.mp hm)).1, ?_⟩
        exact Or.inr (Or.inl (hR p a (mem_ptsOf.mp ha)).1)
    | loadFld p q fd =>
        simp only [genC, Finset.mem_biUnion] at h
        obtain ⟨a, _, hin⟩ := h
        cases hfd : fld a fd with
        | none => rw [hfd] at hin; simp at hin
        | some s =>
            rw [hfd] at hin
            simp only [Finset.mem_image, Prod.mk.injEq] at hin
            obtain ⟨m, hm, rfl, rfl⟩ := hin
            refine ⟨(hR s m (mem_ptsOf.mp hm)).1, ?_⟩
            exact Or.inl (List.mem_flatMap.mpr ⟨_, hc, by simp [writeLocs]⟩)
    | storeFld p q fd =>
        simp only [genC, Finset.mem_biUnion] at h
        obtain ⟨a, _, hin⟩ := h
        cases hfd : fld a fd with
        | none => rw [hfd] at hin; simp at hin
        | some s =>
            rw [hfd] at hin
            simp only [Finset.mem_image, Prod.mk.injEq] at hin
            obtain ⟨m, hm, rfl, rfl⟩ := hin
            refine ⟨(hR q m (mem_ptsOf.mp hm)).1, ?_⟩
            exact Or.inr (Or.inr ⟨a, fd, hfd⟩)

theorem onlyWritten_iterSteps (fld : Fld) (cs : List Constraint) (k : Nat) :
    OnlyWritten fld cs (iterSteps fld cs k) := by
  induction k with
  | zero => intro x l hx; simp [iterSteps] at hx
  | succ k ih => exact onlyWritten_step fld cs _ ih

/-- A location no constraint can write stays with an empty PointsToSet at
every iteration. -/
theorem ptsOf_empty_of_unassigned (fld : Fld) (cs : List Constraint)
    (p k : Nat) (h1 : p ∉ cs.flatMap writeLocs) (h2 : p ∉ cs.flatMap addrLocs)
    (h3 : ∀ a fd, fld a fd ≠ some p) :
    ptsOf (iterSteps fld cs k) p = ∅ := by
  apply Finset.eq_empty_iff_forall_not_mem.mpr
  intro l hl
  have hm := (onlyWritten_iterSteps fld cs k) p l (mem_ptsOf.mp hl)
  rcases hm.2 with h | h | ⟨a, fd, hfd⟩
  · exact h1 h
  · exact h2 h
  · exact h3 a fd hfd

/-- Fan-out at an acquire: one hypothetical event per candidate lock and a
LockOrderEdge for every held-acquired combination. -/
theorem extract_acq_fanout (tid : Nat) (S : List Nat) (rest : List LockStmt)
    (stack : List (List Nat)) (h a : Nat) (hh : h ∈ stack.flatten)
    (ha : a ∈ S) :
    EdgeT.mk tid h a ∈ (extractGo tid (LockStmt.acq S :: rest) stack).2 ∧
      LockEvent.mk true a ∈ (extractGo tid (LockStmt.acq S :: rest) stack).1 := by
  constructor
  · simp only [extractGo, List.mem_append, List.mem_flatMap, List.mem_map]
    exact Or.inl ⟨h, hh, a, ha, rfl⟩
  · simp only [extractGo, List.mem_append, List.mem_map]
    exact Or.inl ⟨a, ha, rfl⟩

/-- Every reported cycle has contributing edges from at least two distinct
ThreadContexts. -/
theorem detect_two_contexts (ctxs : List ThreadCtx) (c : List Nat)
    (hc : c ∈ detect ctxs) : 2 ≤ (cycTids (allEdges ctxs) c).length := by
  unfold detect at hc
  rw [List.mem_filter] at hc
  exact of_decide_eq_true hc.2

set_option maxRecDepth 8000 in
/-- C1: for the triple-deadlock fixture, where t1 acquires mutex1 then
mutex2, t2 acquires mutex2 then mutex3 and t3 acquires mutex3 then mutex1,
the analysis reports exactly one DeadlockCycle finding, of length 3,
covering M1, M2, M3 and back to M1. -/
theorem C1_triple_deadlock_single_cycle :
    deadlockFindings TripleDeadlock.ctxs =
      [Finding.deadlockCycle
        [TripleDeadlock.mutex1, TripleDeadlock.mutex2, TripleDeadlock.mutex3]] := by
  decide

/-- C2: a pointer assigned conditionally between two functions receives
both functions in its PointsToSet at the assignment, and every later
indirect call through it resolves to a target set containing both; the
func_ptr and func_ptr_array fixtures resolve to exactly print and noop. -/
theorem C2_conditional_assignment_both_targets :
    (∀ (fld : Fld) (cs : List Constraint) (p f1 f2 : Nat) (funs : List Nat)
        (k : Nat),
        Constraint.addrOf p f1 ∈ cs → Constraint.addrOf p f2 ∈ cs →
        f1 ∈ funs → f2 ∈ funs →
        f1 ∈ ptsOf (iterSteps fld cs (k + 1)) p ∧
          f2 ∈ ptsOf (iterSteps fld cs (k + 1)) p ∧
          f1 ∈ resolveCall funs (iterSteps fld cs (k + 1)) p ∧
          f2 ∈ resolveCall funs (iterSteps fld cs (k + 1)) p) ∧
    resolveCall FuncPtr.funs FuncPtr.sol FuncPtr.fLoc =
      {FuncPtr.printFn, FuncPtr.noopFn} ∧
    resolveCall FuncPtrArray.funs FuncPtrArray.sol FuncPtrArray.fArr =
      {FuncPtrArray.printFn, FuncPtrArray.noopFn} := by
  refine ⟨?_, by decide, by decide⟩
  intro fld cs p f1 f2 funs k h1 h2 hf1 hf2
  have m1 : (p, f1) ∈ iterSteps fld cs (k + 1) :=
    addrOf_mem_step fld cs (iterSteps fld cs k) p f1 h1
  have m2 : (p, f2) ∈ iterSteps fld cs (k + 1) :=
    addrOf_mem_step fld cs (iterSteps fld cs k) p f2 h2
  exact ⟨mem_ptsOf.mpr m1, mem_ptsOf.mpr m2,
    mem_resolveCall.mpr ⟨m1, hf1⟩, mem_resolveCall.mpr ⟨m2, hf2⟩⟩

/-- Witness for C2 at the func_ptr.c fixture. -/
theorem C2_conditional_assignment_both_targets_witness :
    FuncPtr.printFn ∈ ptsOf (iterSteps noFld FuncPtr.cs 2) FuncPtr.fLoc ∧
      FuncPtr.noopFn ∈ ptsOf (iterSteps noFld FuncPtr.cs 2) FuncPtr.fLoc ∧
      FuncPtr.printFn ∈
        resolveCall FuncPtr.funs (iterSteps noFld FuncPtr.cs 2) FuncPtr.fLoc ∧
      FuncPtr.noopFn ∈
        resolveCall FuncPtr.funs (iterSteps noFld FuncPtr.cs 2) FuncPtr.fLoc :=
  C2_conditional_assignment_both_targets.1 noFld FuncPtr.cs FuncPtr.fLoc
    FuncPtr.printFn FuncPtr.noopFn FuncPtr.funs 1
    (by decide) (by decide) (by decide) (by decide)

/-- C3: every reported DeadlockCycle has edges from at least two distinct
ThreadContexts; a single thread acquiring M1 then M2 and never the reverse
yields zero DeadlockCycle findings even though the edge M1 to M2 is
recorded in the LockOrderGraph. -/
theorem C3_cycles_need_two_contexts :
    (∀ (ctxs : List ThreadCtx) (c : List Nat), c ∈ detect ctxs →
        2 ≤ (cycTids (allEdges ctxs) c).length) ∧
    detect SingleNest.ctxs = [] ∧
    (SingleNest.mutex1, SingleNest.mutex2) ∈
      pairEdges (allEdges SingleNest.ctxs) := by
  exact ⟨detect_two_contexts, by decide, by decide⟩

/-- Witness for C3 at the two-thread reversal example. -/
theorem C3_cycles_need_two_contexts_witness :
    2 ≤ (cycTids (allEdges TwoThreadAB.ctxs) [1, 2]).length :=
  C3_cycles_need_two_contexts.1 TwoThreadAB.ctxs [1, 2] (by decide)

/-- C4: an aliased lock acquire fans out into one hypothetical acquire
event per candidate LockObject and yields a LockOrderEdge for every
(held, acquired) combination; in the sound_lock fixture m resolves to both
mutexes and the single lock(m) call produces both acquire events. -/
theorem C4_lock_alias_fanout :
    (∀ (tid : Nat) (S : List Nat) (rest : List LockStmt)
        (stack : List (List Nat)) (h a : Nat),
        h ∈ stack.flatten → a ∈ S →
        EdgeT.mk tid h a ∈ (extractGo tid (LockStmt.acq S :: rest) stack).2 ∧
          LockEvent.mk true a ∈
            (extractGo tid (LockStmt.acq S :: rest) stack).1) ∧
    ptsOf SoundLock.sol SoundLock.mLoc =
      {SoundLock.mutex1, SoundLock.mutex2} ∧
    (extractGo 0 SoundLock.mainStmts []).1 =
      [LockEvent.mk true SoundLock.mutex1, LockEvent.mk true SoundLock.mutex2,
       LockEvent.mk false SoundLock.mutex1,
       LockEvent.mk false SoundLock.mutex2] := by
  exact ⟨extract_acq_fanout, by decide, by decide⟩

/-- Witness for C4: a held lock 5 and an acquire of candidates 1 and 2. -/
theorem C4_lock_alias_fanout_witness :
    EdgeT.mk 0 5 1 ∈ (extractGo 0 [LockStmt.acq [1, 2]] [[5]]).2 ∧
      LockEvent.mk true 1 ∈ (extractGo 0 [LockStmt.acq [1, 2]] [[5]]).1 :=
  C4_lock_alias_fanout.1 0 [1, 2] [] [[5]] 5 1 (by decide) (by decide)

set_option maxRecDepth 40000 in
/-- C5: a function pointer copied into a struct field by the field-wise
struct copy obj.alloc = *alloc and invoked later resolves to the same
target set as invoking the original pointer directly, namely free. -/
theorem C5_struct_field_copy_same_targets :
    resolveCall CustomAlloc.funs CustomAlloc.sol CustomAlloc.freeCallee =
      resolveCall CustomAlloc.funs CustomAlloc.sol CustomAlloc.allocFreeField ∧
    resolveCall CustomAlloc.funs CustomAlloc.sol CustomAlloc.freeCallee =
      {CustomAlloc.freeFn} := by
  exact ⟨by decide, by decide⟩

/-- C6: a function pointer declared but never assigned in the visible
program keeps an empty PointsToSet, the call through it resolves to the
empty set, and the analysis emits an UnresolvedCall finding for the site
instead of skipping it. -/
theorem C6_unassigned_pointer_unresolved_finding :
    (∀ (fld : Fld) (cs : List Constraint) (p k : Nat),
        p ∉ cs.flatMap writeLocs → p ∉ cs.flatMap addrLocs →
        (∀ a fd, fld a fd ≠ some p) →
        ptsOf (iterSteps fld cs k) p = ∅) ∧
    resolveCall FuncPtrExtern.funs FuncPtrExtern.sol FuncPtrExtern.fLoc = ∅ ∧
    unresolvedFindings FuncPtrExtern.funs FuncPtrExtern.sol
        FuncPtrExtern.sites =
      [Finding.unresolvedCall FuncPtrExtern.siteF] := by
  exact ⟨ptsOf_empty_of_unassigned, by decide, by decide⟩

/-- Witness for C6 at the func_ptr_extern.c fixture. -/
theorem C6_unassigned_pointer_unresolved_finding_witness :
    ptsOf (iterSteps noFld FuncPtrExtern.cs 2) FuncPtrExtern.fLoc = ∅ :=
  C6_unassigned_pointer_unresolved_finding.1 noFld FuncPtrExtern.cs
    FuncPtrExtern.fLoc 2 (by decide) (by decide)
    (fun _ _ h => Option.noConfusion h)

/-- C7: a pointer assigned from the return value of ret shares the
PointsToSet of the virtual return location, the union of the sets of all
return expressions, and the call through it resolves to exactly print and
noop. -/
theorem C7_returned_pointer_targets :
    ptsOf FuncPtrRet.sol FuncPtrRet.fLoc =
      ptsOf FuncPtrRet.sol FuncPtrRet.retLoc ∧
    resolveCall FuncPtrRet.funs FuncPtrRet.sol FuncPtrRet.fLoc =
      {FuncPtrRet.printFn, FuncPtrRet.noopFn} := by
  exact ⟨by decide, by decide⟩

/-- C8: a function pointer assigned only through an inline-assembly operand
binding is not dropped: it is treated as pointing to any function of the
matching category, so the resolved target set is non-empty and includes
add. -/
theorem C8_asm_operand_binding_conservative :
    AsmFix.addFn ∈ resolveCall AsmFix.funs AsmFix.sol AsmFix.fLoc ∧
    resolveCall AsmFix.funs AsmFix.sol AsmFix.fLoc ≠ ∅ := by
  exact ⟨by decide, by decide⟩

/-- C9: for every well-formed program the fixed-point iteration is
monotone, PointsToSets only grow, and a fixed point is reached after at
most n * n rounds over n abstract locations. -/
theorem C9_fixed_point_terminates (fld : Fld) (cs : List Constraint)
    (n : Nat) (hcs : ∀ c ∈ cs, ConstrOk n c = true)
    (hfld : ∀ a fd s, fld a fd = some s → s < n) :
    (∀ k, iterSteps fld cs k ⊆ iterSteps fld cs (k + 1)) ∧
    ∃ k, k ≤ n * n ∧
      step fld cs (iterSteps fld cs k) = iterSteps fld cs k := by
  constructor
  · intro k
    exact subset_step fld cs (iterSteps fld cs k)
  by_contra hno
  push_neg at hno
  have hgrow : ∀ k, k ≤ n * n + 1 → k ≤ (iterSteps fld cs k).card := by
    intro k
    induction k with
    | zero => intro _; exact Nat.zero_le _
    | succ k ih =>
        intro hk
        have hk1 : k ≤ n * n := by omega
        have hne := hno k hk1
        have hsub := subset_step fld cs (iterSteps fld cs k)
        have hss : iterSteps fld cs k ⊂ step fld cs (iterSteps fld cs k) :=
          Finset.ssubset_iff_subset_ne.mpr ⟨hsub, fun he => hne he.symm⟩
        have hcard := Finset.card_lt_card hss
        have hik := ih (by omega)
        have : (iterSteps fld cs (k + 1)).card =
            (step fld cs (iterSteps fld cs k)).card := rfl
        omega
  have hb := iterSteps_bounded fld n cs hcs hfld (n * n + 1)
  have hcard : (iterSteps fld cs (n * n + 1)).card ≤ n * n := by
    have hle := Finset.card_le_card hb
    simpa [univN, Finset.card_range] using hle
  have := hgrow (n * n + 1) le_rfl
  omega

/-- Witness for C9 at a one-location one-constraint program. -/
theorem C9_fixed_point_terminates_witness :
    (∀ k, iterSteps noFld [Constraint.addrOf 0 0] k ⊆
        iterSteps noFld [Constraint.addrOf 0 0] (k + 1)) ∧
    ∃ k, k ≤ 1 ∧
      step noFld [Constraint.addrOf 0 0]
          (iterSteps noFld [Constraint.addrOf 0 0] k) =
        iterSteps noFld [Constraint.addrOf 0 0] k :=
  C9_fixed_point_terminates noFld [Constraint.addrOf 0 0] 1 (by decide)
    (fun _ _ _ h => Option.noConfusion h)

set_option maxRecDepth 8000 in
/-- C10: the functions inc and glob, escaping only as function-pointer
fields of dev_ops passed to the external register_dev, are treated as
potentially invoked, are not reported as unreachable dead code, and the
lock of B_mutex inside glob contributes an acquire event to the analysis. -/
theorem C10_escaped_functions_not_dead :
    FunstructRC.incFn ∈ FunstructRC.invoked ∧
    FunstructRC.globFn ∈ FunstructRC.invoked ∧
    unreachableFindings FunstructRC.funs FunstructRC.invoked = [] ∧
    LockEvent.mk true FunstructRC.Bmutex ∈ allEvents FunstructRC.ctxs := by
  exact ⟨by decide, by decide, by decide, by decide⟩

end CIL
